import Mathlib

/-!
Shallow embedding of the rlang core container / graph-traversal runtime
(src/export/exported.c and, where the implementation lives outside the
provided sources, models built from the specification).  Host objects are
identified by `Nat` ids (identity equality), mirroring the opaque tagged
object representation with reference identity.
-/

namespace Rlang

/-- Error kinds of the core (spec §7). -/
inductive Err where
  | invalidArgument
  | typeMismatch
  | outOfBounds
  | underflow
  | capacityExceeded
  | cancelled
deriving DecidableEq

/-- Host object type tags (the `r_type` enum restricted to the kinds the
claims exercise). -/
inductive RType where
  | tNull
  | tLogical
  | tInteger
  | tDouble
  | tCharacter
  | tList
  | tEnvironment
deriving DecidableEq

/-- Dictionary values; opaque host objects are identified by `Nat` ids. -/
abbrev Val := Nat

/-- Membership of a key in an insertion-ordered entry list. -/
def entriesHas : List (Nat × Val) → Nat → Bool
  | [], _ => false
  | (k', _) :: rest, k => k' == k || entriesHas rest k

/-- First value bound to a key in an entry list. -/
def entriesGet : List (Nat × Val) → Nat → Option Val
  | [], _ => none
  | (k', v') :: rest, k => if k' == k then some v' else entriesGet rest k

/-- Update in place the first entry bound to a key. -/
def entriesUpd : List (Nat × Val) → Nat → Val → List (Nat × Val)
  | [], _, _ => []
  | (k', v') :: rest, k, v =>
    if k' == k then (k', v) :: rest else (k', v') :: entriesUpd rest k v

/-- Remove the entries bound to a key (keys are unique by identity in every
dictionary the operations build, so at most one entry is removed). -/
def entriesDel : List (Nat × Val) → Nat → List (Nat × Val)
  | [], _ => []
  | (k', v') :: rest, k =>
    if k' == k then entriesDel rest k else (k', v') :: entriesDel rest k

/-- Modelled from the spec: the dictionary state of `struct r_dict`
(dict.c is not under src/): capacity, `prevent_resize` flag, and the
insertion-ordered identity-keyed entries (spec §3, §4.3). -/
structure RDict where
  capacity : Nat
  prevent_resize : Bool
  entries : List (Nat × Val)
deriving DecidableEq

/-- Modelled from the spec: `r_dict_has` (dict.c is not under src/). -/
def r_dict_has (d : RDict) (k : Nat) : Bool :=
  entriesHas d.entries k

/-- Modelled from the spec: `r_dict_get` (dict.c is not under src/) —
the value, or a distinguished missing result (`none`) if absent. -/
def r_dict_get (d : RDict) (k : Nat) : Option Val :=
  entriesGet d.entries k

/-- Modelled from the spec: `r_dict_put` (dict.c is not under src/) —
`true` when the key is newly inserted, `false` when an existing key's
value is updated; when full with `prevent_resize` set, a new key fails
with `CapacityExceeded` (the returned error carries no dictionary, so the
input is unchanged); when full otherwise, capacity doubles and insertion
order is preserved (spec §4.3). -/
def r_dict_put (d : RDict) (k : Nat) (v : Val) : Except Err (Bool × RDict) :=
  if r_dict_has d k then
    .ok (false, { d with entries := entriesUpd d.entries k v })
  else if d.entries.length < d.capacity then
    .ok (true, { d with entries := d.entries ++ [(k, v)] })
  else if d.prevent_resize then
    .error .capacityExceeded
  else
    .ok (true, { d with capacity := 2 * d.capacity,
                        entries := d.entries ++ [(k, v)] })

/-- Modelled from the spec: `r_dict_del` (dict.c is not under src/) —
`true` if removed, `false` if absent (spec §4.3). -/
def r_dict_del (d : RDict) (k : Nat) : Bool × RDict :=
  if r_dict_has d k then
    (true, { d with entries := entriesDel d.entries k })
  else
    (false, d)

/-- A host scalar argument at the external interface: an integer scalar,
a double scalar (a rational, exact where the claims need it), or a
non-numeric object. -/
inductive HostArg where
  | intScalar (n : Int)
  | dblScalar (q : Rat)
  | nonNumeric
deriving DecidableEq

/-- `r_is_int`: the argument is a scalar of integer type. -/
def r_is_int : HostArg → Bool
  | .intScalar _ => true
  | _ => false

/-- `r_int_get(x, 0)` on an integer scalar. -/
def r_int_get0 : HostArg → Int
  | .intScalar n => n
  | _ => 0

/-- Modelled from the spec: `r_as_ssize` (not under src/) — converts a
numeric scalar to a signed size, failing with `InvalidArgument` on
non-integral or non-numeric inputs (spec §6). -/
def r_as_ssize : HostArg → Except Err Int
  | .intScalar n => .ok n
  | .dblScalar q => if q.den = 1 then .ok q.num else .error .invalidArgument
  | .nonNumeric => .error .invalidArgument

/-- Modelled from the spec: `r_new_dict` (dict.c is not under src/) —
creates an empty dictionary; a negative size fails with `InvalidArgument`
before any mutation (spec §6). -/
def r_new_dict (size : Int) : Except Err RDict :=
  if size < 0 then .error .invalidArgument
  else .ok { capacity := size.toNat, prevent_resize := false, entries := [] }

/-- `rlang_new_dict` (exported.c:77-89): checks that `size` is an integer
scalar, builds the dictionary, then sets its `prevent_resize` flag. -/
def rlang_new_dict (size : HostArg) (prevent_resize : Bool) : Except Err RDict :=
  if !r_is_int size then .error .invalidArgument
  else
    match r_new_dict (r_int_get0 size) with
    | .error e => .error e
    | .ok d => .ok { d with prevent_resize := prevent_resize }

/-- `r_vec_elt_sizeof`: byte size of one element of a vector of the given
type, as used for the compatibility check in exported.c:214. -/
def eltSizeof : RType → Nat
  | .tNull => 0
  | .tLogical => 4
  | .tInteger => 4
  | .tDouble => 8
  | .tCharacter => 8
  | .tList => 8
  | .tEnvironment => 0

/-- A host vector pushed through the dyn-array entry points: its type tag
and its underlying data words (`r_vec_cbegin`). -/
structure RVec where
  type : RType
  data : List Int
deriving DecidableEq

/-- `r_vec_elt_sizeof(x)` of a host vector. -/
def r_vec_elt_sizeof (x : RVec) : Nat :=
  eltSizeof x.type

/-- An element stored in a dynamic array: either the pushed object's
reference itself (`&x`, exported.c:224), the words read from the pushed
vector's data (`r_vec_cbegin(x)`, exported.c:227), or a converted boolean
(exported.c:234-235). -/
inductive ArrElt where
  | ref (x : RVec)
  | elt (words : List Int)
  | boolElt (b : Bool)
deriving DecidableEq

/-- Modelled from the spec: the state of `struct r_dyn_array`
(dyn-array.c is not under src/): element kind, element byte size, the
owned-reference barrier flag, logical count, capacity, growth factor and
the stored elements (spec §3, §4.1). -/
structure DynArray where
  type : RType
  elt_byte_size : Nat
  barrier_set : Bool
  count : Nat
  capacity : Nat
  growth_factor : Nat
  elements : List ArrElt
deriving DecidableEq

/-- Modelled from the spec: `r_arr_push_back` (dyn-array.c is not under
src/) — appends one element, growing capacity to
`max (count+1) (capacity * growth_factor)` first when full; all-or-nothing
(spec §4.1). -/
def r_arr_push_back (arr : DynArray) (e : ArrElt) : DynArray :=
  let grown :=
    if arr.count = arr.capacity then
      { arr with capacity := max (arr.count + 1) (arr.capacity * arr.growth_factor) }
    else arr
  { grown with count := grown.count + 1, elements := grown.elements ++ [e] }

/-- `rlang_arr_push_back` (exported.c:211-230): unless the barrier is set,
a byte-size mismatch fails with `TypeMismatch` before any mutation; then
character- and list-kinded buffers store the pushed object's reference
itself, every other kind stores the words read from the vector's data. -/
def rlang_arr_push_back (arr : DynArray) (x : RVec) : Except Err DynArray :=
  if !arr.barrier_set && r_vec_elt_sizeof x != arr.elt_byte_size then
    .error .typeMismatch
  else
    match arr.type with
    | .tCharacter => .ok (r_arr_push_back arr (.ref x))
    | .tList => .ok (r_arr_push_back arr (.ref x))
    | _ => .ok (r_arr_push_back arr (.elt x.data))

/-- `rlang_arr_push_back_bool` (exported.c:232-237): converts the argument
to a boolean and appends it, with no byte-size compatibility check. -/
def rlang_arr_push_back_bool (arr : DynArray) (x : Bool) : Except Err DynArray :=
  .ok (r_arr_push_back arr (.boolElt x))

/-- Modelled from the spec: `r_new_dyn_vector` (dyn-array.c is not under
src/) — creates an empty typed buffer of the given kind; a negative
capacity fails with `InvalidArgument` before any mutation (spec §4.1, §6);
character- and list-kinded buffers hold owned references (barrier set). -/
def r_new_dyn_vector (ty : RType) (capacity : Int) : Except Err DynArray :=
  if capacity < 0 then .error .invalidArgument
  else .ok { type := ty,
             elt_byte_size := eltSizeof ty,
             barrier_set := ty == .tCharacter || ty == .tList,
             count := 0,
             capacity := capacity.toNat,
             growth_factor := 2,
             elements := [] }

/-- `rlang_new_dyn_vector` (exported.c:162-167): converts the capacity
argument with `r_as_ssize` and builds the buffer. -/
def rlang_new_dyn_vector (ty : RType) (capacity : HostArg) : Except Err DynArray :=
  match r_as_ssize capacity with
  | .error e => .error e
  | .ok n => r_new_dyn_vector ty n

/-- A node of the host object graph: its type tag and the ids of its
children in the node's natural enumeration order. -/
structure Node where
  type : RType
  children : List Nat
deriving DecidableEq

/-- The host object graph: id-keyed nodes plus the id of the global
environment (compared by identity at exported.c:955). -/
structure Store where
  nodes : List (Nat × Node)
  genv : Nat
deriving DecidableEq

/-- Node lookup by id. -/
def nodesGet : List (Nat × Node) → Nat → Node
  | [], _ => { type := .tNull, children := [] }
  | (k, nd) :: rest, id => if k == id then nd else nodesGet rest id

/-- Node of a store at an id. -/
def nodeOf (st : Store) (id : Nat) : Node :=
  nodesGet st.nodes id

/-- Relation tag of a visited node: how it relates to its parent
(spec §3): the root, or the j-th child of a parent of a given kind. -/
inductive RelTag where
  | root
  | child (parentType : RType) (j : Nat)
deriving DecidableEq

/-- Traversal direction; the default walk emits only `entering` events
(spec §4.4). -/
inductive Dir where
  | entering
deriving DecidableEq

/-- A value bound to one label of the callback-argument record. -/
inductive FieldVal where
  | obj (x : Option Nat)
  | typeTag (t : RType)
  | num (n : Nat)
  | relVal (r : RelTag)
  | dirVal (d : Dir)
deriving DecidableEq

/-- The callback-argument record built at exported.c:975-984.  Each field
is named after the `r_sym` label the source binds and holds exactly the
value the source pairs with that label. -/
structure EmitRecord where
  x : Nat
  addr : Nat
  field_type : FieldVal
  field_depth : FieldVal
  field_parent : FieldVal
  rel : FieldVal
  i : Nat
  dir : FieldVal
deriving DecidableEq

/-- Modelled from the spec: a pending frame of `struct r_sexp_iterator`
(sexp-iterator.c is not under src/): object id, depth (root = 0), parent
id, relation tag and sibling index (spec §3, §4.4). -/
structure Frame where
  id : Nat
  depth : Nat
  parent : Option Nat
  rel : RelTag
  sibIdx : Nat
deriving DecidableEq

/-- Walker status (spec §4.4): `NotStarted/Visiting → Exhausted | Cancelled`. -/
inductive Status where
  | visiting
  | exhausted
  | cancelled
deriving DecidableEq

/-- Whole state of one `ffi_sexp_iterate` run: pending frames, the private
visited-set dictionary, the records passed to the callback so far, the loop
counter `i` of exported.c:950, and the status. -/
structure WalkState where
  stack : List Frame
  visited : RDict
  output : List EmitRecord
  i : Nat
  status : Status
deriving DecidableEq

/-- The record for one event, following the `args` block at
exported.c:975-984 label by label: `type` is paired with the parent
object (line 978), `depth` with the node's type tag (line 979), `parent`
with the depth (line 980), `i` with the 1-based sibling index (line 982). -/
def mkRecord (f : Frame) (ty : RType) : EmitRecord :=
  { x := f.id,
    addr := f.id,
    field_type := .obj f.parent,
    field_depth := .typeTag ty,
    field_parent := .num f.depth,
    rel := .relVal f.rel,
    i := f.sibIdx + 1,
    dir := .dirVal .entering }

/-- Modelled from the spec: child-frame enumeration of the iterator
(sexp-iterator.c is not under src/): the j-th child gets depth+1, the
node as parent, a relation tag and sibling index j (spec §4.4). -/
def childFramesAux (pid : Nat) (pty : RType) (d : Nat) : Nat → List Nat → List Frame
  | _, [] => []
  | j, c :: rest =>
    { id := c, depth := d + 1, parent := some pid,
      rel := .child pty j, sibIdx := j } :: childFramesAux pid pty d (j + 1) rest

/-- Frames for all children of the node under a frame. -/
def childFrames (st : Store) (f : Frame) (ty : RType) : List Frame :=
  childFramesAux f.id ty f.depth 0 (nodeOf st f.id).children

/-- The walker's visited-set `r_dict_put(p_dict, x, r_null)` call
(exported.c:970); the walker's dictionary has `prevent_resize = false`
(it is built by `r_new_dict(1024)`), so the put never fails — the error
default is unreachable. -/
def dictPutVisited (d : RDict) (k : Nat) : Bool × RDict :=
  match r_dict_put d k 0 with
  | .ok r => r
  | .error _ => (false, d)

/-- One iteration of the `ffi_sexp_iterate` loop (exported.c:950-992):
the cancellation poll every 100 events (lines 950-952), the global
environment skip (lines 955-958), the environment visited-set check
(lines 968-973), then the emission of the record and the descent into the
children (the iterator pushes them unless `skip_incoming` was set). -/
def stepW (st : Store) (signal : Nat → Bool) (s : WalkState) : WalkState :=
  match s.status with
  | .exhausted => s
  | .cancelled => s
  | .visiting =>
    match s.stack with
    | [] => { s with status := .exhausted }
    | f :: rest =>
      if s.i % 100 == 0 && signal s.i then
        { s with status := .cancelled }
      else if f.id == st.genv then
        { s with stack := rest, i := s.i + 1 }
      else
        if (nodeOf st f.id).type == .tEnvironment then
          match dictPutVisited s.visited f.id with
          | (false, d') => { s with stack := rest, visited := d', i := s.i + 1 }
          | (true, d') =>
            { stack := childFrames st f (nodeOf st f.id).type ++ rest,
              visited := d',
              output := s.output ++ [mkRecord f (nodeOf st f.id).type],
              i := s.i + 1,
              status := .visiting }
        else
          { s with stack := childFrames st f (nodeOf st f.id).type ++ rest,
                   output := s.output ++ [mkRecord f (nodeOf st f.id).type],
                   i := s.i + 1 }

/-- Iterate `stepW` a given number of times. -/
def runW (st : Store) (signal : Nat → Bool) : Nat → WalkState → WalkState
  | 0, s => s
  | fuel + 1, s => runW st signal fuel (stepW st signal s)

/-- Initial state of `ffi_sexp_iterate` over a root: one root frame at
depth 0, an empty visited set of capacity 1024 (exported.c:944), no output
and loop counter 0. -/
def initW (root : Nat) : WalkState :=
  { stack := [{ id := root, depth := 0, parent := none, rel := .root, sibIdx := 0 }],
    visited := { capacity := 1024, prevent_resize := false, entries := [] },
    output := [],
    i := 0,
    status := .visiting }

/-- `ffi_sexp_iterate` run for a given number of steps (the loop runs
until exhaustion; fuel makes the iteration explicit for cyclic graphs). -/
def sexpIterate (st : Store) (signal : Nat → Bool) (root : Nat) (fuel : Nat) : WalkState :=
  runW st signal fuel (initW root)

/-- Number of records emitted for a given object id. -/
def countId : List EmitRecord → Nat → Nat
  | [], _ => 0
  | r :: rest, id => (if r.x = id then 1 else 0) + countId rest id

/-- Whether a numeric host argument is negative or non-integral (§6). -/
def negOrNonIntegral : HostArg → Bool
  | .intScalar n => n < 0
  | .dblScalar q => q < 0 || q.den ≠ 1
  | .nonNumeric => false

/-- A cancellation signal that is never raised. -/
def noSignal : Nat → Bool := fun _ => false

/-- A cancellation signal raised (and staying raised) from time `t` on,
as seen at each loop iteration. -/
def raisedAt (t : Nat) : Nat → Bool := fun i => decide (t ≤ i)

/-- The first cancellation checkpoint at or after `t`: the next multiple
of the 100-event poll interval of exported.c:951. -/
def c100 (t : Nat) : Nat := ((t + 99) / 100) * 100

/-- Invariant for cancellation boundedness: the loop counter never passes
the first checkpoint after the raise time, and a cancelled state was
cancelled at a checkpoint not before the raise time. -/
def cInv (t : Nat) (s : WalkState) : Prop :=
  s.i ≤ c100 t ∧ (s.status = .cancelled → s.i % 100 = 0 ∧ t ≤ s.i)

/-- Invariant for environment deduplication: an environment node not in
the visited set was never emitted, and no environment node is emitted
more than once. -/
def envOnce (st : Store) (s : WalkState) : Prop :=
  ∀ id, (nodeOf st id).type = .tEnvironment →
    (r_dict_has s.visited id = false → countId s.output id = 0)
    ∧ countId s.output id ≤ 1

/-! Concrete data for witnesses and counterexamples. -/

/-- A single `NULL` leaf node as the whole graph. -/
def leafStore : Store :=
  { nodes := [(0, { type := .tNull, children := [] })], genv := 99 }

/-- The root frame of any walk over node 0. -/
def rootFrame : Frame :=
  { id := 0, depth := 0, parent := none, rel := .root, sibIdx := 0 }

/-- A list node whose two elements are the same list node: a shared
container-like node reached twice. -/
def shStore : Store :=
  { nodes := [(0, { type := .tList, children := [1, 1] }),
              (1, { type := .tList, children := [] })], genv := 99 }

/-- A cyclic graph: a root list holding an environment that refers back
to the root list. -/
def cycStore : Store :=
  { nodes := [(0, { type := .tList, children := [1] }),
              (1, { type := .tEnvironment, children := [0] })], genv := 99 }

/-- A graph whose root list holds the global environment (id 1). -/
def gStore : Store :=
  { nodes := [(0, { type := .tList, children := [1] }),
              (1, { type := .tEnvironment, children := [] })], genv := 1 }

/-- A full one-slot bounded dictionary, for the C4 witness. -/
def wDictFull : RDict :=
  { capacity := 1, prevent_resize := true, entries := [(1, 10)] }

/-- A dictionary holding one unrelated entry, for the C6 witness. -/
def wDictRT : RDict :=
  { capacity := 4, prevent_resize := false, entries := [(5, 50)] }

/-- The dictionary after inserting key 1, for the C6 witness. -/
def wDictRT2 : RDict :=
  { capacity := 4, prevent_resize := false, entries := [(5, 50), (1, 10)] }

/-- An integer buffer without the barrier, for the C5 witness. -/
def wArrInt : DynArray :=
  { type := .tInteger, elt_byte_size := 4, barrier_set := false,
    count := 0, capacity := 4, growth_factor := 2, elements := [] }

/-- The same integer buffer with the barrier set, for the C5 witness. -/
def wArrIntBar : DynArray :=
  { type := .tInteger, elt_byte_size := 4, barrier_set := true,
    count := 0, capacity := 4, growth_factor := 2, elements := [] }

/-- An 8-byte double vector, for the C5 witness. -/
def wVecDbl : RVec :=
  { type := .tDouble, data := [7] }

/-- A list buffer, for the C9 witness. -/
def wArrList : DynArray :=
  { type := .tList, elt_byte_size := 8, barrier_set := true,
    count := 0, capacity := 4, growth_factor := 2, elements := [] }

/-- A list vector, for the C9 witness. -/
def wVecList : RVec :=
  { type := .tList, data := [3] }

/-! Entry-list lemmas for the dictionary model. -/

theorem entriesHas_upd (l : List (Nat × Val)) (k j : Nat) (v : Val) :
    entriesHas (entriesUpd l k v) j = entriesHas l j := by
  induction l with
  | nil => rfl
  | cons hd tl ih =>
    obtain ⟨k', v'⟩ := hd
    by_cases h : k' = k <;> simp [entriesUpd, entriesHas, h, ih]

theorem entriesHas_append (l : List (Nat × Val)) (k j : Nat) (v : Val) :
    entriesHas (l ++ [(k, v)]) j = (entriesHas l j || k == j) := by
  induction l with
  | nil => simp [entriesHas]
  | cons hd tl ih =>
    obtain ⟨k', v'⟩ := hd
    simp [entriesHas, ih, Bool.or_assoc]

theorem entriesGet_upd_self (l : List (Nat × Val)) (k : Nat) (v : Val)
    (h : entriesHas l k = true) :
    entriesGet (entriesUpd l k v) k = some v := by
  induction l with
  | nil => simp [entriesHas] at h
  | cons hd tl ih =>
    obtain ⟨k', v'⟩ := hd
    by_cases hk : k' = k
    · simp [entriesUpd, entriesGet, hk]
    · simp [entriesHas, hk] at h
      simp [entriesUpd, entriesGet, hk, ih h]

theorem entriesGet_upd_other (l : List (Nat × Val)) (k j : Nat) (v : Val)
    (h : j ≠ k) :
    entriesGet (entriesUpd l k v) j = entriesGet l j := by
  induction l with
  | nil => rfl
  | cons hd tl ih =>
    obtain ⟨k', v'⟩ := hd
    by_cases hk : k' = k
    · subst hk
      simp [entriesUpd, entriesGet, Ne.symm h]
    · by_cases hj : k' = j <;> simp [entriesUpd, entriesGet, hk, hj, h, ih]

theorem entriesGet_append_self (l : List (Nat × Val)) (k : Nat) (v : Val)
    (h : entriesHas l k = false) :
    entriesGet (l ++ [(k, v)]) k = some v := by
  induction l with
  | nil => simp [entriesGet]
  | cons hd tl ih =>
    obtain ⟨k', v'⟩ := hd
    simp [entriesHas] at h
    simp [entriesGet, h.1, ih h.2]

theorem entriesGet_append_other (l : List (Nat × Val)) (k j : Nat) (v : Val)
    (h : j ≠ k) :
    entriesGet (l ++ [(k, v)]) j = entriesGet l j := by
  induction l with
  | nil => simp [entriesGet, Ne.symm h]
  | cons hd tl ih =>
    obtain ⟨k', v'⟩ := hd
    by_cases hj : k' = j <;> simp [entriesGet, hj, ih]

theorem entriesHas_del_self (l : List (Nat × Val)) (k : Nat) :
    entriesHas (entriesDel l k) k = false := by
  induction l with
  | nil => rfl
  | cons hd tl ih =>
    obtain ⟨k', v'⟩ := hd
    by_cases hk : k' = k <;> simp [entriesDel, entriesHas, hk, ih]

theorem entriesHas_del_other (l : List (Nat × Val)) (k j : Nat) (h : j ≠ k) :
    entriesHas (entriesDel l k) j = entriesHas l j := by
  induction l with
  | nil => rfl
  | cons hd tl ih =>
    obtain ⟨k', v'⟩ := hd
    by_cases hk : k' = k
    · subst hk
      simp [entriesDel, entriesHas, Ne.symm h, ih]
    · simp [entriesDel, entriesHas, hk, ih]

theorem entriesGet_del_other (l : List (Nat × Val)) (k j : Nat) (h : j ≠ k) :
    entriesGet (entriesDel l k) j = entriesGet l j := by
  induction l with
  | nil => rfl
  | cons hd tl ih =>
    obtain ⟨k', v'⟩ := hd
    by_cases hk : k' = k
    · subst hk
      simp [entriesDel, entriesGet, Ne.symm h, ih]
    · by_cases hj : k' = j <;> simp [entriesDel, entriesGet, hk, hj, h, ih]

theorem entriesGet_none_of_not_has (l : List (Nat × Val)) (k : Nat)
    (h : entriesHas l k = false) :
    entriesGet l k = none := by
  induction l with
  | nil => rfl
  | cons hd tl ih =>
    obtain ⟨k', v'⟩ := hd
    simp [entriesHas] at h
    simp [entriesGet, h.1, ih h.2]

theorem entriesDel_length_le (l : List (Nat × Val)) (k : Nat) :
    (entriesDel l k).length ≤ l.length := by
  induction l with
  | nil => simp [entriesDel]
  | cons hd tl ih =>
    obtain ⟨k', v'⟩ := hd
    by_cases hk : k' = k <;> simp [entriesDel, hk] <;> omega

theorem entriesDel_length_lt (l : List (Nat × Val)) (k : Nat)
    (h : entriesHas l k = true) :
    (entriesDel l k).length < l.length := by
  induction l with
  | nil => simp [entriesHas] at h
  | cons hd tl ih =>
    obtain ⟨k', v'⟩ := hd
    by_cases hk : k' = k
    · have := entriesDel_length_le tl k
      simp [entriesDel, hk]
      omega
    · simp [entriesHas, hk] at h
      simp [entriesDel, hk]
      exact ih h

/-- Appending through the growth path changes only capacity before the
element is stored: count increases by one and the element is appended. -/
theorem r_arr_push_back_spec (arr : DynArray) (e : ArrElt) :
    (r_arr_push_back arr e).count = arr.count + 1
    ∧ (r_arr_push_back arr e).elements = arr.elements ++ [e]
    ∧ (r_arr_push_back arr e).type = arr.type
    ∧ (r_arr_push_back arr e).barrier_set = arr.barrier_set := by
  unfold r_arr_push_back
  split <;> simp

/-- Case analysis of `r_dict_put`: update of a present key, plain insert,
capacity failure, or insert with capacity doubling. -/
theorem r_dict_put_cases (d : RDict) (k : Nat) (v : Val) :
    (r_dict_has d k = true ∧
      r_dict_put d k v = .ok (false, { d with entries := entriesUpd d.entries k v }))
    ∨ (r_dict_has d k = false ∧ d.entries.length < d.capacity ∧
      r_dict_put d k v = .ok (true, { d with entries := d.entries ++ [(k, v)] }))
    ∨ (r_dict_has d k = false ∧ ¬ d.entries.length < d.capacity ∧
      d.prevent_resize = true ∧ r_dict_put d k v = .error .capacityExceeded)
    ∨ (r_dict_has d k = false ∧ ¬ d.entries.length < d.capacity ∧
      d.prevent_resize = false ∧
      r_dict_put d k v = .ok (true, { d with capacity := 2 * d.capacity,
                                             entries := d.entries ++ [(k, v)] })) := by
  by_cases h1 : r_dict_has d k = true
  · refine Or.inl ⟨h1, ?_⟩
    unfold r_dict_put
    rw [if_pos h1]
  · have h1f : r_dict_has d k = false := by simpa using h1
    by_cases h2 : d.entries.length < d.capacity
    · refine Or.inr (Or.inl ⟨h1f, h2, ?_⟩)
      unfold r_dict_put
      rw [if_neg h1, if_pos h2]
    · by_cases h3 : d.prevent_resize = true
      · refine Or.inr (Or.inr (Or.inl ⟨h1f, h2, h3, ?_⟩))
        unfold r_dict_put
        rw [if_neg h1, if_neg h2, if_pos h3]
      · have h3f : d.prevent_resize = false := by simpa using h3
        refine Or.inr (Or.inr (Or.inr ⟨h1f, h2, h3f, ?_⟩))
        unfold r_dict_put
        rw [if_neg h1, if_neg h2, if_neg h3]

/-! Claim theorems for the Dictionary and TypedBuffer entry points. -/

/-- C4: `put` returns `true` exactly when the key is newly inserted and
`false` when an existing key's value is updated; on a full dictionary with
`prevent_resize` set, `put` of a new key fails with `CapacityExceeded`
(the error returns no dictionary, so the input dictionary is unchanged);
after deleting any one present entry, a subsequent new-key `put`
succeeds. -/
theorem dict_put_capacity_spec (d : RDict) (k : Nat) (v : Val) :
    (∀ b d', r_dict_put d k v = .ok (b, d') → (b = true ↔ r_dict_has d k = false))
    ∧ (r_dict_has d k = false → d.entries.length = d.capacity →
        d.prevent_resize = true →
        r_dict_put d k v = .error .capacityExceeded)
    ∧ (∀ k', r_dict_has d k' = true → r_dict_has d k = false →
        d.entries.length = d.capacity →
        ∃ d'', r_dict_put (r_dict_del d k').2 k v = .ok (true, d'')) := by
  refine ⟨?_, ?_, ?_⟩
  · intro b d' hput
    rcases r_dict_put_cases d k v with ⟨h1, hc⟩ | ⟨h1, _, hc⟩ | ⟨_, _, _, hc⟩ | ⟨h1, _, _, hc⟩ <;>
        rw [hc] at hput
    · simp only [Except.ok.injEq, Prod.mk.injEq] at hput
      simp [← hput.1, h1]
    · simp only [Except.ok.injEq, Prod.mk.injEq] at hput
      simp [← hput.1, h1]
    · simp at hput
    · simp only [Except.ok.injEq, Prod.mk.injEq] at hput
      simp [← hput.1, h1]
  · intro habs hfull hpr
    rcases r_dict_put_cases d k v with ⟨h1, _⟩ | ⟨_, h2, _⟩ | ⟨_, _, _, hc⟩ | ⟨_, _, h3, _⟩
    · rw [h1] at habs
      exact absurd habs (by simp)
    · omega
    · exact hc
    · rw [h3] at hpr
      exact absurd hpr (by simp)
  · intro k' hk' habs hfull
    have hne : k ≠ k' := by
      intro he
      simp [he, hk'] at habs
    have habs' : entriesHas d.entries k = false := habs
    have hd1 : (r_dict_del d k').2 = { d with entries := entriesDel d.entries k' } := by
      unfold r_dict_del
      rw [if_pos hk']
    have hdel_has : r_dict_has (r_dict_del d k').2 k = false := by
      rw [hd1]
      show entriesHas (entriesDel d.entries k') k = false
      rw [entriesHas_del_other d.entries k' k hne]
      exact habs'
    have hroom : (r_dict_del d k').2.entries.length < (r_dict_del d k').2.capacity := by
      rw [hd1]
      show (entriesDel d.entries k').length < d.capacity
      have := entriesDel_length_lt d.entries k' hk'
      omega
    rcases r_dict_put_cases (r_dict_del d k').2 k v with
        ⟨h1, _⟩ | ⟨_, _, hc⟩ | ⟨_, h2, _, _⟩ | ⟨_, h2, _, _⟩
    · rw [hdel_has] at h1
      exact absurd h1 (by simp)
    · exact ⟨_, hc⟩
    · exact absurd hroom h2
    · exact absurd hroom h2

/-- C4 witness: a full 1-entry dictionary with `prevent_resize` rejects a
new key with `CapacityExceeded`, and after deleting the existing entry a
new-key `put` succeeds. -/
theorem dict_put_capacity_spec_witness :
    r_dict_put wDictFull 2 20 = .error .capacityExceeded
    ∧ ∃ d'', r_dict_put (r_dict_del wDictFull 1).2 2 20 = .ok (true, d'') :=
  ⟨(dict_put_capacity_spec wDictFull 2 20).2.1 (by decide) (by decide) (by decide),
   (dict_put_capacity_spec wDictFull 2 20).2.2 1 (by decide) (by decide) (by decide)⟩

/-- C6: after `put(key, value)`, `get(key)` returns the value; `put` and
`del` of a different key preserve `get(key)`; after `del(key)`, `has(key)`
is false; `get` of an absent key returns the distinguished missing result
`none` rather than an error. -/
theorem dict_round_trip_spec (d : RDict) (k : Nat) (v : Val) (j : Nat) :
    (∀ b d', r_dict_put d k v = .ok (b, d') → r_dict_get d' k = some v)
    ∧ (∀ b d', r_dict_put d k v = .ok (b, d') → j ≠ k →
        r_dict_get d' j = r_dict_get d j)
    ∧ (j ≠ k → r_dict_get (r_dict_del d k).2 j = r_dict_get d j)
    ∧ r_dict_has (r_dict_del d k).2 k = false
    ∧ (r_dict_has d k = false → r_dict_get d k = none) := by
  refine ⟨?_, ?_, ?_, ?_, ?_⟩
  · intro b d' hput
    rcases r_dict_put_cases d k v with ⟨h1, hc⟩ | ⟨h1, _, hc⟩ | ⟨_, _, _, hc⟩ | ⟨h1, _, _, hc⟩ <;>
        rw [hc] at hput
    · simp only [Except.ok.injEq, Prod.mk.injEq] at hput
      rw [← hput.2]
      show entriesGet (entriesUpd d.entries k v) k = some v
      exact entriesGet_upd_self d.entries k v h1
    · simp only [Except.ok.injEq, Prod.mk.injEq] at hput
      rw [← hput.2]
      show entriesGet (d.entries ++ [(k, v)]) k = some v
      exact entriesGet_append_self d.entries k v h1
    · simp at hput
    · simp only [Except.ok.injEq, Prod.mk.injEq] at hput
      rw [← hput.2]
      show entriesGet (d.entries ++ [(k, v)]) k = some v
      exact entriesGet_append_self d.entries k v h1
  · intro b d' hput hj
    rcases r_dict_put_cases d k v with ⟨_, hc⟩ | ⟨_, _, hc⟩ | ⟨_, _, _, hc⟩ | ⟨_, _, _, hc⟩ <;>
        rw [hc] at hput
    · simp only [Except.ok.injEq, Prod.mk.injEq] at hput
      rw [← hput.2]
      show entriesGet (entriesUpd d.entries k v) j = entriesGet d.entries j
      exact entriesGet_upd_other d.entries k j v hj
    · simp only [Except.ok.injEq, Prod.mk.injEq] at hput
      rw [← hput.2]
      show entriesGet (d.entries ++ [(k, v)]) j = entriesGet d.entries j
      exact entriesGet_append_other d.entries k j v hj
    · simp at hput
    · simp only [Except.ok.injEq, Prod.mk.injEq] at hput
      rw [← hput.2]
      show entriesGet (d.entries ++ [(k, v)]) j = entriesGet d.entries j
      exact entriesGet_append_other d.entries k j v hj
  · intro hj
    unfold r_dict_del
    split
    · show entriesGet (entriesDel d.entries k) j = entriesGet d.entries j
      exact entriesGet_del_other d.entries k j hj
    · rfl
  · unfold r_dict_del
    split
    · show entriesHas (entriesDel d.entries k) k = false
      exact entriesHas_del_self d.entries k
    · rename_i hnot
      show r_dict_has d k = false
      simpa using hnot
  · intro h
    exact entriesGet_none_of_not_has d.entries k h

/-- C6 witness: on a concrete dictionary, `get` after `put` returns the
value, and `has` after `del` is false. -/
theorem dict_round_trip_spec_witness :
    r_dict_get wDictRT2 1 = some 10
    ∧ r_dict_has (r_dict_del wDictRT2 1).2 1 = false :=
  ⟨(dict_round_trip_spec wDictRT 1 10 0).1 true wDictRT2 rfl,
   (dict_round_trip_spec wDictRT2 1 10 0).2.2.2.1⟩

/-- C7: at the external interface, a negative or non-integral
capacity/size input fails with `InvalidArgument` (the error returns no
structure, so no mutation takes place), for both dictionary creation and
dynamic-vector creation. -/
theorem capacity_args_validated (a : HostArg) (pr : Bool) (ty : RType)
    (h : negOrNonIntegral a = true) :
    rlang_new_dict a pr = .error .invalidArgument
    ∧ rlang_new_dyn_vector ty a = .error .invalidArgument := by
  cases a with
  | intScalar n =>
    simp [negOrNonIntegral] at h
    constructor
    · simp [rlang_new_dict, r_is_int, r_int_get0, r_new_dict, h]
    · simp [rlang_new_dyn_vector, r_as_ssize, r_new_dyn_vector, h]
  | dblScalar q =>
    simp [negOrNonIntegral] at h
    constructor
    · simp [rlang_new_dict, r_is_int]
    · by_cases hden : q.den = 1
      · have hq : q < 0 := by
          rcases h with h | h
          · exact h
          · exact absurd hden h
        have hnum : q.num < 0 := by
          have hnn : ¬ 0 ≤ q.num := by
            rw [Rat.num_nonneg]
            exact not_le.mpr hq
          omega
        simp [rlang_new_dyn_vector, r_as_ssize, hden, r_new_dyn_vector, hnum]
      · simp [rlang_new_dyn_vector, r_as_ssize, hden]
  | nonNumeric => simp [negOrNonIntegral] at h

/-- C7 witness: size `-1` is rejected by both constructors. -/
theorem capacity_args_validated_witness :
    rlang_new_dict (.intScalar (-1)) false = .error .invalidArgument
    ∧ rlang_new_dyn_vector .tInteger (.intScalar (-1)) = .error .invalidArgument :=
  capacity_args_validated (.intScalar (-1)) false .tInteger (by decide)

/-- C5: without the barrier, pushing an element whose byte size disagrees
with the buffer's element size fails with `TypeMismatch` (the error
returns no buffer, so the buffer is unchanged); with the barrier set the
size check is skipped and the push proceeds, appending one element. -/
theorem arr_push_back_size_check (arr : DynArray) (x : RVec) :
    (arr.barrier_set = false → r_vec_elt_sizeof x ≠ arr.elt_byte_size →
      rlang_arr_push_back arr x = .error .typeMismatch)
    ∧ (arr.barrier_set = true →
      ∃ arr', rlang_arr_push_back arr x = .ok arr'
        ∧ arr'.count = arr.count + 1
        ∧ ∃ e, arr'.elements = arr.elements ++ [e]) := by
  constructor
  · intro hb hne
    unfold rlang_arr_push_back
    simp [hb, hne]
  · intro hb
    unfold rlang_arr_push_back
    rw [hb]
    simp only [Bool.not_true, Bool.false_and, Bool.false_eq_true, if_false]
    cases harr : arr.type
    case tCharacter =>
      exact ⟨_, rfl, (r_arr_push_back_spec arr _).1, _, (r_arr_push_back_spec arr _).2.1⟩
    case tList =>
      exact ⟨_, rfl, (r_arr_push_back_spec arr _).1, _, (r_arr_push_back_spec arr _).2.1⟩
    all_goals
      exact ⟨_, rfl, (r_arr_push_back_spec arr _).1, _, (r_arr_push_back_spec arr _).2.1⟩

/-- C5 witness: a 4-byte integer buffer rejects an 8-byte double push with
`TypeMismatch`; with the barrier set the same push proceeds. -/
theorem arr_push_back_size_check_witness :
    rlang_arr_push_back wArrInt wVecDbl = .error .typeMismatch
    ∧ ∃ arr', rlang_arr_push_back wArrIntBar wVecDbl = .ok arr'
        ∧ arr'.count = wArrIntBar.count + 1
        ∧ ∃ e, arr'.elements = wArrIntBar.elements ++ [e] :=
  ⟨(arr_push_back_size_check wArrInt wVecDbl).1 rfl (by decide),
   (arr_push_back_size_check wArrIntBar wVecDbl).2 rfl⟩

/-- C9: the generic push entry point stores the pushed object's reference
itself for character- and list-kinded buffers, and the words read from the
pushed vector's data for every other kind. -/
theorem arr_push_back_elt_dispatch (arr : DynArray) (x : RVec) (arr' : DynArray)
    (hok : rlang_arr_push_back arr x = .ok arr') :
    ((arr.type = .tCharacter ∨ arr.type = .tList) →
      arr'.elements = arr.elements ++ [.ref x])
    ∧ ((arr.type ≠ .tCharacter ∧ arr.type ≠ .tList) →
      arr'.elements = arr.elements ++ [.elt x.data]) := by
  unfold rlang_arr_push_back at hok
  split at hok
  · exact absurd hok (by simp)
  · constructor
    · intro hty
      have hred : (Except.ok (r_arr_push_back arr (ArrElt.ref x)) : Except Err DynArray)
          = Except.ok arr' := by
        rcases hty with hty | hty <;> rw [hty] at hok <;> exact hok
      have heq : r_arr_push_back arr (ArrElt.ref x) = arr' := by
        injection hred
      rw [← heq]
      exact (r_arr_push_back_spec arr _).2.1
    · intro hcl
      have hred : (Except.ok (r_arr_push_back arr (ArrElt.elt x.data)) : Except Err DynArray)
          = Except.ok arr' := by
        cases harr : arr.type
        case tCharacter => exact absurd harr hcl.1
        case tList => exact absurd harr hcl.2
        all_goals (rw [harr] at hok; exact hok)
      have heq : r_arr_push_back arr (ArrElt.elt x.data) = arr' := by
        injection hred
      rw [← heq]
      exact (r_arr_push_back_spec arr _).2.1

/-- C9 witness: pushing into a list buffer stores the pushed object's
reference itself. -/
theorem arr_push_back_elt_dispatch_witness :
    (r_arr_push_back wArrList (.ref wVecList)).elements
      = wArrList.elements ++ [.ref wVecList] :=
  (arr_push_back_elt_dispatch wArrList wVecList
    (r_arr_push_back wArrList (.ref wVecList)) rfl).1 (Or.inr rfl)

/-- C10: the boolean-specific push entry point appends the converted
boolean with no byte-size compatibility check — it succeeds for every
buffer, whatever the barrier flag or element byte size, so it never fails
with `TypeMismatch`. -/
theorem arr_push_back_bool_unchecked (arr : DynArray) (b : Bool) :
    ∃ arr', rlang_arr_push_back_bool arr b = .ok arr'
      ∧ arr'.elements = arr.elements ++ [.boolElt b]
      ∧ arr'.count = arr.count + 1 :=
  ⟨r_arr_push_back arr (.boolElt b), rfl,
   (r_arr_push_back_spec arr _).2.1, (r_arr_push_back_spec arr _).1⟩

/-! Walker helper lemmas. -/

/-- Counting over an appended record. -/
theorem countId_append (l : List EmitRecord) (r : EmitRecord) (id : Nat) :
    countId (l ++ [r]) id = countId l id + (if r.x = id then 1 else 0) := by
  induction l with
  | nil => simp [countId]
  | cons hd tl ih =>
    show (if hd.x = id then 1 else 0) + countId (tl ++ [r]) id
        = (if hd.x = id then 1 else 0) + countId tl id + (if r.x = id then 1 else 0)
    rw [ih]
    omega

/-- `stepW` on an exhausted visiting state. -/
theorem stepW_eq_nil (st : Store) (signal : Nat → Bool) (visited : RDict)
    (output : List EmitRecord) (i : Nat) :
    stepW st signal ⟨[], visited, output, i, .visiting⟩
      = ⟨[], visited, output, i, .exhausted⟩ := rfl

/-- `stepW` on a visiting state with a pending frame, written out branch
by branch. -/
theorem stepW_eq_cons (st : Store) (signal : Nat → Bool) (f : Frame)
    (rest : List Frame) (visited : RDict) (output : List EmitRecord) (i : Nat) :
    stepW st signal ⟨f :: rest, visited, output, i, .visiting⟩
      = if (i % 100 == 0 && signal i) = true then
          ⟨f :: rest, visited, output, i, .cancelled⟩
        else if (f.id == st.genv) = true then
          ⟨rest, visited, output, i + 1, .visiting⟩
        else if ((nodeOf st f.id).type == .tEnvironment) = true then
          match dictPutVisited visited f.id with
          | (false, d2) => ⟨rest, d2, output, i + 1, .visiting⟩
          | (true, d2) =>
            ⟨childFrames st f (nodeOf st f.id).type ++ rest, d2,
             output ++ [mkRecord f (nodeOf st f.id).type], i + 1, .visiting⟩
        else
          ⟨childFrames st f (nodeOf st f.id).type ++ rest, visited,
           output ++ [mkRecord f (nodeOf st f.id).type], i + 1, .visiting⟩ := rfl

/-- Case analysis of the walker's visited-set put. -/
theorem dictPutVisited_cases (d : RDict) (k : Nat) :
    (r_dict_has d k = true ∧
      dictPutVisited d k = (false, { d with entries := entriesUpd d.entries k 0 }))
    ∨ (r_dict_has d k = false ∧
      ∃ d2, dictPutVisited d k = (true, d2) ∧ d2.entries = d.entries ++ [(k, 0)])
    ∨ (r_dict_has d k = false ∧ dictPutVisited d k = (false, d)) := by
  rcases r_dict_put_cases d k 0 with ⟨h1, hc⟩ | ⟨h1, _, hc⟩ | ⟨h1, _, _, hc⟩ | ⟨h1, _, _, hc⟩
  · refine Or.inl ⟨h1, ?_⟩
    unfold dictPutVisited
    rw [hc]
  · refine Or.inr (Or.inl ⟨h1, { d with entries := d.entries ++ [(k, 0)] }, ?_, rfl⟩)
    unfold dictPutVisited
    rw [hc]
  · refine Or.inr (Or.inr ⟨h1, ?_⟩)
    unfold dictPutVisited
    rw [hc]
  · refine Or.inr (Or.inl ⟨h1,
      { d with capacity := 2 * d.capacity, entries := d.entries ++ [(k, 0)] }, ?_, rfl⟩)
    unfold dictPutVisited
    rw [hc]

/-- A visited-set put that reports the key as present does not change
which keys are present. -/
theorem dictPutVisited_false_has (d d2 : RDict) (k : Nat)
    (h : dictPutVisited d k = (false, d2)) (j : Nat) :
    r_dict_has d2 j = r_dict_has d j := by
  rcases dictPutVisited_cases d k with ⟨_, hc⟩ | ⟨_, d3, hc, _⟩ | ⟨_, hc⟩
  · have h2 := h.symm.trans hc
    simp only [Prod.mk.injEq, true_and] at h2
    rw [h2]
    show entriesHas (entriesUpd d.entries k 0) j = entriesHas d.entries j
    exact entriesHas_upd d.entries k j 0
  · exact absurd (h.symm.trans hc) (by simp)
  · have h2 := h.symm.trans hc
    simp only [Prod.mk.injEq, true_and] at h2
    rw [h2]

/-- A visited-set put that reports the key as new registers exactly that
key: it was absent, it is now present, other keys are unchanged. -/
theorem dictPutVisited_true_has (d d2 : RDict) (k : Nat)
    (h : dictPutVisited d k = (true, d2)) :
    r_dict_has d k = false ∧ r_dict_has d2 k = true
    ∧ ∀ j, j ≠ k → r_dict_has d2 j = r_dict_has d j := by
  rcases dictPutVisited_cases d k with ⟨_, hc⟩ | ⟨h1, d3, hc, he⟩ | ⟨_, hc⟩
  · exact absurd (h.symm.trans hc) (by simp)
  · have h2 := h.symm.trans hc
    simp only [Prod.mk.injEq, true_and] at h2
    have he2 : d2.entries = d.entries ++ [(k, 0)] := by rw [h2, he]
    refine ⟨h1, ?_, ?_⟩
    · show entriesHas d2.entries k = true
      rw [he2, entriesHas_append]
      simp
    · intro j hj
      show entriesHas d2.entries j = entriesHas d.entries j
      rw [he2, entriesHas_append]
      simp [Ne.symm hj]
  · exact absurd (h.symm.trans hc) (by simp)

/-- The object field of an emitted record is the frame's object id. -/
theorem mkRecord_x (f : Frame) (ty : RType) : (mkRecord f ty).x = f.id := rfl

/-- `stepW` preserves the environment-deduplication invariant. -/
theorem stepW_envOnce (st : Store) (signal : Nat → Bool) (s : WalkState)
    (h : envOnce st s) : envOnce st (stepW st signal s) := by
  obtain ⟨stack, visited, output, i, status⟩ := s
  cases status
  case exhausted => exact h
  case cancelled => exact h
  case visiting =>
    cases stack with
    | nil => exact h
    | cons f rest =>
      rw [stepW_eq_cons]
      by_cases hc : (i % 100 == 0 && signal i) = true
      · rw [if_pos hc]
        exact h
      · rw [if_neg hc]
        by_cases hg : (f.id == st.genv) = true
        · rw [if_pos hg]
          exact h
        · rw [if_neg hg]
          by_cases hty : ((nodeOf st f.id).type == .tEnvironment) = true
          · rw [if_pos hty]
            cases hdp : dictPutVisited visited f.id with
            | mk b d2 =>
              cases b
              · intro id hid
                have hhas := dictPutVisited_false_has visited d2 f.id hdp id
                refine ⟨?_, (h id hid).2⟩
                intro hf
                refine (h id hid).1 ?_
                rw [← hhas]
                exact hf
              · intro id hid
                obtain ⟨hnew, hpresent, hother⟩ := dictPutVisited_true_has visited d2 f.id hdp
                by_cases hidf : id = f.id
                · subst hidf
                  have hzero : countId output f.id = 0 := (h f.id hid).1 hnew
                  constructor
                  · intro hf
                    rw [hpresent] at hf
                    exact absurd hf (by simp)
                  · show countId (output ++ [mkRecord f (nodeOf st f.id).type]) f.id ≤ 1
                    rw [countId_append, hzero, mkRecord_x, if_pos rfl]
                · constructor
                  · intro hf
                    have habs : r_dict_has visited id = false := by
                      rw [← hother id hidf]
                      exact hf
                    have hz : countId output id = 0 := (h id hid).1 habs
                    show countId (output ++ [mkRecord f (nodeOf st f.id).type]) id = 0
                    rw [countId_append, hz, mkRecord_x, if_neg (Ne.symm hidf)]
                  · show countId (output ++ [mkRecord f (nodeOf st f.id).type]) id ≤ 1
                    rw [countId_append, mkRecord_x, if_neg (Ne.symm hidf)]
                    have hle : countId output id ≤ 1 := (h id hid).2
                    omega
          · rw [if_neg hty]
            have htyne : (nodeOf st f.id).type ≠ .tEnvironment := by simpa using hty
            intro id hid
            have hidf : id ≠ f.id := by
              intro he
              rw [he] at hid
              exact htyne hid
            constructor
            · intro hf
              have hz : countId output id = 0 := (h id hid).1 hf
              show countId (output ++ [mkRecord f (nodeOf st f.id).type]) id = 0
              rw [countId_append, hz, mkRecord_x, if_neg (Ne.symm hidf)]
            · show countId (output ++ [mkRecord f (nodeOf st f.id).type]) id ≤ 1
              rw [countId_append, mkRecord_x, if_neg (Ne.symm hidf)]
              have hle : countId output id ≤ 1 := (h id hid).2
              omega

/-- `runW` preserves the environment-deduplication invariant. -/
theorem runW_envOnce (st : Store) (signal : Nat → Bool) (fuel : Nat) (s : WalkState)
    (h : envOnce st s) : envOnce st (runW st signal fuel s) := by
  induction fuel generalizing s with
  | zero => exact h
  | succ n ih => exact ih _ (stepW_envOnce st signal s h)

/-- The raise time precedes its checkpoint. -/
theorem c100_ge (t : Nat) : t ≤ c100 t := by
  unfold c100
  omega

/-- The checkpoint is a multiple of the poll interval. -/
theorem c100_mod (t : Nat) : c100 t % 100 = 0 := by
  unfold c100
  omega

/-- The checkpoint is within one interval of the raise time. -/
theorem c100_lt (t : Nat) : c100 t < t + 100 := by
  unfold c100
  omega

/-- A cancelled state is a fixed point of `stepW`. -/
theorem stepW_cancelled_eq (st : Store) (signal : Nat → Bool) (s : WalkState)
    (h : s.status = .cancelled) : stepW st signal s = s := by
  unfold stepW
  rw [h]

/-- A cancelled state is a fixed point of `runW`: the walk never resumes. -/
theorem runW_cancelled_eq (st : Store) (signal : Nat → Bool) (fuel : Nat) (s : WalkState)
    (h : s.status = .cancelled) : runW st signal fuel s = s := by
  induction fuel with
  | zero => rfl
  | succ n ih =>
    show runW st signal n (stepW st signal s) = s
    rw [stepW_cancelled_eq st signal s h]
    exact ih

/-- `stepW` preserves the cancellation-boundedness invariant under a
signal raised from time `t` on. -/
theorem stepW_cInv (st : Store) (t : Nat) (s : WalkState) (h : cInv t s) :
    cInv t (stepW st (raisedAt t) s) := by
  obtain ⟨stack, visited, output, i, status⟩ := s
  obtain ⟨h1, h2⟩ := h
  cases status
  case exhausted => exact ⟨h1, h2⟩
  case cancelled => exact ⟨h1, h2⟩
  case visiting =>
    cases stack with
    | nil => exact ⟨h1, fun hx => Status.noConfusion hx⟩
    | cons f rest =>
      rw [stepW_eq_cons]
      by_cases hc : (i % 100 == 0 && raisedAt t i) = true
      · rw [if_pos hc]
        simp [raisedAt] at hc
        exact ⟨h1, fun _ => hc⟩
      · rw [if_neg hc]
        have hcp : ¬ (i % 100 = 0 ∧ t ≤ i) := by
          intro hand
          exact hc (by simp [raisedAt, hand.1, hand.2])
        have hlt : i < c100 t := by
          rcases Nat.lt_or_ge i (c100 t) with hlt | hge
          · exact hlt
          · exfalso
            have he : i = c100 t := Nat.le_antisymm h1 hge
            refine hcp ⟨?_, ?_⟩
            · rw [he]
              exact c100_mod t
            · rw [he]
              exact c100_ge t
        by_cases hg : (f.id == st.genv) = true
        · rw [if_pos hg]
          exact ⟨hlt, fun hx => Status.noConfusion hx⟩
        · rw [if_neg hg]
          by_cases hty : ((nodeOf st f.id).type == .tEnvironment) = true
          · rw [if_pos hty]
            cases hdp : dictPutVisited visited f.id with
            | mk b d2 =>
              cases b
              · exact ⟨hlt, fun hx => Status.noConfusion hx⟩
              · exact ⟨hlt, fun hx => Status.noConfusion hx⟩
          · rw [if_neg hty]
            exact ⟨hlt, fun hx => Status.noConfusion hx⟩

/-- `runW` preserves the cancellation-boundedness invariant. -/
theorem runW_cInv (st : Store) (t fuel : Nat) (s : WalkState) (h : cInv t s) :
    cInv t (runW st (raisedAt t) fuel s) := by
  induction fuel generalizing s with
  | zero => exact h
  | succ n ih => exact ih _ (stepW_cInv st t s h)

/-- `stepW` emits no record for the global environment. -/
theorem stepW_avoids_genv (st : Store) (signal : Nat → Bool) (s : WalkState)
    (h : ∀ r ∈ s.output, r.x ≠ st.genv) :
    ∀ r ∈ (stepW st signal s).output, r.x ≠ st.genv := by
  obtain ⟨stack, visited, output, i, status⟩ := s
  cases status
  case exhausted => exact h
  case cancelled => exact h
  case visiting =>
    cases stack with
    | nil => exact h
    | cons f rest =>
      rw [stepW_eq_cons]
      by_cases hc : (i % 100 == 0 && signal i) = true
      · rw [if_pos hc]
        exact h
      · rw [if_neg hc]
        by_cases hg : (f.id == st.genv) = true
        · rw [if_pos hg]
          exact h
        · rw [if_neg hg]
          have hne : f.id ≠ st.genv := by simpa using hg
          by_cases hty : ((nodeOf st f.id).type == .tEnvironment) = true
          · rw [if_pos hty]
            cases hdp : dictPutVisited visited f.id with
            | mk b d2 =>
              cases b
              · exact h
              · intro r hr
                rcases List.mem_append.mp hr with hr | hr
                · exact h r hr
                · have heq : r = mkRecord f (nodeOf st f.id).type := by simpa using hr
                  rw [heq]
                  exact hne
          · rw [if_neg hty]
            intro r hr
            rcases List.mem_append.mp hr with hr | hr
            · exact h r hr
            · have heq : r = mkRecord f (nodeOf st f.id).type := by simpa using hr
              rw [heq]
              exact hne

/-- `runW` emits no record for the global environment. -/
theorem runW_avoids_genv (st : Store) (signal : Nat → Bool) (fuel : Nat) (s : WalkState)
    (h : ∀ r ∈ s.output, r.x ≠ st.genv) :
    ∀ r ∈ (runW st signal fuel s).output, r.x ≠ st.genv := by
  induction fuel generalizing s with
  | zero => exact h
  | succ n ih => exact ih _ (stepW_avoids_genv st signal s h)

/-! Claim theorems for the GraphWalker. -/

/-- C1: the record emitted for a walked node binds the label `type` to the
parent object, `depth` to the node's type tag and `parent` to the depth
(exported.c:978-980): on the walk of a single `NULL` leaf, the one emitted
record holds the type tag in its `depth` field and the depth in its
`parent` field, so the depth field does not hold the node's depth and the
parent field does not hold the parent reference. -/
theorem ffi_sexp_iterate_field_rotation :
    (sexpIterate leafStore noSignal 0 2).status = .exhausted
    ∧ (sexpIterate leafStore noSignal 0 2).output = [mkRecord rootFrame .tNull]
    ∧ (mkRecord rootFrame .tNull).field_depth = .typeTag .tNull
    ∧ (mkRecord rootFrame .tNull).field_parent = .num 0
    ∧ (mkRecord rootFrame .tNull).field_type = .obj none
    ∧ (mkRecord rootFrame .tNull).field_depth ≠ .num 0
    ∧ (mkRecord rootFrame .tNull).field_parent ≠ .obj none := by decide

/-- C2 (counterexample): a container-like (list) node referenced twice is
emitted twice — reference-bearing non-environment nodes are not
deduplicated by the walk. -/
theorem sexp_iterate_shared_container_twice :
    (nodeOf shStore 1).type = .tList
    ∧ (sexpIterate shStore noSignal 0 10).status = .exhausted
    ∧ countId (sexpIterate shStore noSignal 0 10).output 1 = 2 := by decide

/-- C2 (amended): every distinct environment node reachable from the root
is emitted at most once, on every graph, signal and fuel; and the cyclic
test graph — a root list whose environment child refers back to the root —
is walked to exhaustion in finitely many steps with the back-referencing
environment emitted exactly once. -/
theorem sexp_iterate_env_once :
    (∀ st signal root fuel id,
      (nodeOf st id).type = .tEnvironment →
      countId (sexpIterate st signal root fuel).output id ≤ 1)
    ∧ (sexpIterate cycStore noSignal 0 10).status = .exhausted
    ∧ countId (sexpIterate cycStore noSignal 0 10).output 1 = 1 := by
  refine ⟨?_, by decide, by decide⟩
  intro st signal root fuel id hid
  have h0 : envOnce st (initW root) := by
    intro id2 hid2
    exact ⟨fun _ => rfl, Nat.zero_le 1⟩
  exact (runW_envOnce st signal fuel (initW root) h0 id hid).2

/-- C2 witness: the deduplication bound applied to the environment of the
concrete cyclic graph. -/
theorem sexp_iterate_env_once_witness :
    countId (sexpIterate cycStore noSignal 0 10).output 1 ≤ 1 :=
  sexp_iterate_env_once.1 cycStore noSignal 0 10 1 (by decide)

/-- C3: under a signal raised from time `t` on, the loop counter never
passes the first poll checkpoint after `t` (which is within one 100-event
interval of `t`); a cancelled walk was cancelled at a checkpoint no
earlier than `t` (the signal is observed only at the poll between steps);
and a cancelled walk never resumes. -/
theorem sexp_iterate_cancel_bounded (st : Store) (root t fuel : Nat) :
    (sexpIterate st (raisedAt t) root fuel).i ≤ c100 t
    ∧ c100 t < t + 100
    ∧ ((sexpIterate st (raisedAt t) root fuel).status = .cancelled →
        (sexpIterate st (raisedAt t) root fuel).i % 100 = 0
        ∧ t ≤ (sexpIterate st (raisedAt t) root fuel).i)
    ∧ (∀ extra, (sexpIterate st (raisedAt t) root fuel).status = .cancelled →
        runW st (raisedAt t) extra (sexpIterate st (raisedAt t) root fuel)
          = sexpIterate st (raisedAt t) root fuel) := by
  have h0 : cInv t (initW root) := ⟨Nat.zero_le _, fun hx => Status.noConfusion hx⟩
  have hinv := runW_cInv st t fuel (initW root) h0
  exact ⟨hinv.1, c100_lt t, hinv.2,
    fun extra hx => runW_cancelled_eq st (raisedAt t) extra _ hx⟩

/-- C3 witness: on the cyclic graph with the signal raised from time 0,
the walk cancels at checkpoint 0 and never resumes. -/
theorem sexp_iterate_cancel_bounded_witness :
    (sexpIterate cycStore (raisedAt 0) 0 5).i ≤ c100 0
    ∧ ((sexpIterate cycStore (raisedAt 0) 0 5).i % 100 = 0
        ∧ 0 ≤ (sexpIterate cycStore (raisedAt 0) 0 5).i)
    ∧ runW cycStore (raisedAt 0) 3 (sexpIterate cycStore (raisedAt 0) 0 5)
        = sexpIterate cycStore (raisedAt 0) 0 5 :=
  ⟨(sexp_iterate_cancel_bounded cycStore 0 0 5).1,
   (sexp_iterate_cancel_bounded cycStore 0 0 5).2.2.1 (by decide),
   (sexp_iterate_cancel_bounded cycStore 0 0 5).2.2.2 3 (by decide)⟩

/-- C8: the walk never emits a record (never invokes the consumer
callback) for the global environment, for every graph, signal, root and
fuel; the global-environment frame is skipped with its descent pruned
(exported.c:955-958). -/
theorem sexp_iterate_skips_global_env (st : Store) (signal : Nat → Bool)
    (root fuel : Nat) :
    ∀ r ∈ (sexpIterate st signal root fuel).output, r.x ≠ st.genv := by
  apply runW_avoids_genv
  intro r hr
  simp [initW] at hr

/-- C8 witness: the record the walk of `gStore` emits for the root is not
a record for the global environment. -/
theorem sexp_iterate_skips_global_env_witness :
    (mkRecord rootFrame .tList).x ≠ gStore.genv :=
  sexp_iterate_skips_global_env gStore noSignal 0 10
    (mkRecord rootFrame .tList) (by decide)

end Rlang
